import Mathlib

/-!
Verification of the record-scanning routine in
`src/cli/src/commands/developer/scan.rs` (the `Scan` command).

The Rust code is shallowly embedded below.  Machine integers (`u32`) are
modelled as `Nat` together with the constant `U32MAX = 2^32 - 1`;
`saturating_add` is `satAdd` (capped addition) and `saturating_sub` is the
truncated subtraction of `Nat`, which coincides with it.

The opaque snarkVM capabilities (key parsing, view-key derivation, the
ownership test, decryption, serial-number derivation) and the remote
endpoint queries (block pages, find-transition-by-serial-number, latest
height) are modelled as fields of the records `Cred` and `ScanEnv`:
total functions returning `Except EnvErr _`, so that a transport failure,
a parse failure and a not-found all appear as `Except.error` values, as
they do through `anyhow`/`ureq` in the source.  Error values produced by
the scan code itself get their own constructors in `Err`, distinct from
the lifted environment errors.
-/

/-- Opaque error raised by an external capability (network, parsing,
cryptography); the payload is an arbitrary code. -/
abbrev EnvErr : Type := Nat

/-- Private keys, view keys, commitments, ciphertext records, plaintext
records and serial numbers are opaque values; we model each as `Nat`. -/
abbrev PrivKey : Type := Nat

abbrev ViewKey : Type := Nat

abbrev Commitment : Type := Nat

abbrev CtRec : Type := Nat

abbrev PtRec : Type := Nat

abbrev SN : Type := Nat

/-- A block, reduced to what `block.records()` exposes: the ordered list
of `(commitment, ciphertext record)` pairs. -/
abbrev Blk : Type := List (Commitment × CtRec)

/-- Errors of the scan routine: the `bail!("Invalid block range")` of
`fetch_records`, the `ensure!` of `parse_end_height` (carrying start and
end as the message does), the two `ensure!`/`bail!` of `parse_account`,
and errors propagated with `?` from the environment. -/
inductive Err : Type where
  | invalidRange : Err
  | invalidScanRange (s e : Nat) : Err
  | credentialMismatch : Err
  | missingCredential : Err
  | fromEnv (e : EnvErr) : Err
deriving DecidableEq, Repr

/-- `u32::MAX`. -/
def U32MAX : Nat := 4294967295

/-- `u32::saturating_add` on the `Nat` model. -/
def satAdd (a b : Nat) : Nat := min (a + b) U32MAX

/-- The external capabilities used by `fetch_records` and
`decrypt_record`:
* `toAddressX vk` — `view_key.to_address().to_x_coordinate()`;
* `isOwner ct vk x` — `ct.is_owner_with_address_x_coordinate(view_key, x)`;
* `decrypt ct vk` — `ct.decrypt(view_key)`;
* `serialNumber pk c` — `Record::serial_number(private_key, commitment)`;
* `getBlocks s e` — the HTTP GET of `/blocks?start=s&end=e` together with
  its JSON parse (one `Except`, as both failures propagate with `?`);
* `findTransition sn` — the HTTP GET of `/find/transitionID/{sn}`, where
  `Except.ok` is any 2xx response and `Except.error` any `ureq` error. -/
structure ScanEnv : Type where
  toAddressX : ViewKey → Nat
  isOwner : CtRec → ViewKey → Nat → Bool
  decrypt : CtRec → ViewKey → Except EnvErr PtRec
  serialNumber : PrivKey → Commitment → Except EnvErr SN
  getBlocks : Nat → Nat → Except EnvErr (List Blk)
  findTransition : SN → Except EnvErr Unit

/-- `Scan::decrypt_record` (scan.rs:185-218).  With a private key:
compute the serial number, query `findTransition`; on success the record
is spent, return `none`; on any error decrypt and return the record.
Without a private key: decrypt unconditionally. -/
def decrypt_record (env : ScanEnv) (private_key : Option PrivKey) (view_key : ViewKey)
    (commitment : Commitment) (ciphertext_record : CtRec) : Except Err (Option PtRec) :=
  match private_key with
  | some pk =>
    match env.serialNumber pk commitment with
    | .error e => .error (.fromEnv e)
    | .ok sn =>
      match env.findTransition sn with
      | .ok _ => .ok none
      | .error _ =>
        match env.decrypt ciphertext_record view_key with
        | .error e => .error (.fromEnv e)
        | .ok r => .ok (some r)
  | none =>
    match env.decrypt ciphertext_record view_key with
    | .error e => .error (.fromEnv e)
    | .ok r => .ok (some r)

/-- The inner record loop of `fetch_records` (scan.rs:165-175) over one
block's `(commitment, ciphertext_record)` list: test ownership, and for
owned records call `decrypt_record`, collecting the `some` results in
order; any error aborts. -/
def scanBlock (env : ScanEnv) (private_key : Option PrivKey) (view_key : ViewKey)
    (x : Nat) : List (Commitment × CtRec) → Except Err (List PtRec)
  | [] => .ok []
  | (c, ct) :: rest =>
    if env.isOwner ct view_key x then
      match decrypt_record env private_key view_key c ct with
      | .error e => .error e
      | .ok none => scanBlock env private_key view_key x rest
      | .ok (some r) =>
        match scanBlock env private_key view_key x rest with
        | .error e => .error e
        | .ok rs => .ok (r :: rs)
    else scanBlock env private_key view_key x rest

/-- The outer block loop of `fetch_records` (scan.rs:164-176) over the
blocks of one fetched page, concatenating the per-block results. -/
def scanBlocks (env : ScanEnv) (private_key : Option PrivKey) (view_key : ViewKey)
    (x : Nat) : List Blk → Except Err (List PtRec)
  | [] => .ok []
  | b :: bs =>
    match scanBlock env private_key view_key x b with
    | .error e => .error e
    | .ok rs =>
      match scanBlocks env private_key view_key x bs with
      | .error e => .error e
      | .ok rs2 => .ok (rs ++ rs2)

/-- `MAX_BLOCK_RANGE` (scan.rs:144). -/
def MAX_BLOCK_RANGE : Nat := 50

/-- The `while request_start <= end_height` paging loop of
`fetch_records` (scan.rs:149-179), with explicit fuel because the loop
need not terminate for every `u32` input.  The result is `none` when the
fuel runs out before the loop exits; otherwise `some (reqs, res)` where
`reqs` is the ordered log of the `(request_start, request_end)` pairs
sent to `getBlocks` and `res` the `Result` of the Rust function
(`Except.ok` carries the accumulated `records` vector).  Per iteration:
`num = min(MAX_BLOCK_RANGE, end_height.saturating_sub(request_start)
.saturating_add(1))`, `request_end = request_start.saturating_add(num)`,
fetch, scan, then `request_start = request_start.saturating_add(num)`. -/
def fetchLoop (env : ScanEnv) (private_key : Option PrivKey) (view_key : ViewKey)
    (x : Nat) (end_height : Nat) :
    Nat → Nat → List (Nat × Nat) → List PtRec →
    Option (List (Nat × Nat) × Except Err (List PtRec))
  | 0, _, _, _ => none
  | fuel + 1, request_start, reqs, acc =>
    if request_start ≤ end_height then
      let num := min MAX_BLOCK_RANGE (satAdd (end_height - request_start) 1)
      let request_end := satAdd request_start num
      match env.getBlocks request_start request_end with
      | .error e => some (reqs ++ [(request_start, request_end)], .error (.fromEnv e))
      | .ok blocks =>
        match scanBlocks env private_key view_key x blocks with
        | .error e => some (reqs ++ [(request_start, request_end)], .error e)
        | .ok newRecs =>
          fetchLoop env private_key view_key x end_height fuel
            (satAdd request_start num) (reqs ++ [(request_start, request_end)]) (acc ++ newRecs)
    else some (reqs, .ok acc)

/-- `Scan::fetch_records` (scan.rs:129-182): reject `start_height >
end_height` with `Invalid block range`, derive the address
x-coordinate once, then run the paging loop from `start_height` with
empty request log and empty record vector. -/
def fetch_records (fuel : Nat) (env : ScanEnv) (private_key : Option PrivKey)
    (view_key : ViewKey) (start_height end_height : Nat) :
    Option (List (Nat × Nat) × Except Err (List PtRec)) :=
  if start_height > end_height then some ([], .error .invalidRange)
  else
    fetchLoop env private_key view_key (env.toAddressX view_key) end_height
      fuel start_height [] []

/-- `Scan::parse_end_height` (scan.rs:105-126).  `latestHeight` stands
for the outcome of the `latest/height` endpoint query, consulted only
when no explicit end is given; then `ensure!(end > start)`. -/
def parse_end_height (start : Nat) (endOpt : Option Nat)
    (latestHeight : Except EnvErr Nat) : Except Err Nat :=
  match endOpt with
  | some height =>
    if start < height then .ok height else .error (.invalidScanRange start height)
  | none =>
    match latestHeight with
    | .error e => .error (.fromEnv e)
    | .ok height =>
      if start < height then .ok height else .error (.invalidScanRange start height)

/-- The credential-string capabilities used by `parse_account`:
`parsePriv` is `PrivateKey::from_str`, `parseView` is
`ViewKey::from_str`, `deriveView` is `ViewKey::try_from(private_key)`.
Credential strings are modelled as opaque tokens (`Nat`). -/
structure Cred : Type where
  parsePriv : Nat → Except EnvErr PrivKey
  parseView : Nat → Except EnvErr ViewKey
  deriveView : PrivKey → Except EnvErr ViewKey

/-- `Scan::parse_account` (scan.rs:74-102): the four-way match on the
optional private-key and view-key inputs. -/
def parse_account (cred : Cred) (private_key view_key : Option Nat) :
    Except Err (Option PrivKey × ViewKey) :=
  match private_key, view_key with
  | some pks, some vks =>
    match cred.parsePriv pks with
    | .error e => .error (.fromEnv e)
    | .ok pk =>
      match cred.deriveView pk with
      | .error e => .error (.fromEnv e)
      | .ok expected =>
        match cred.parseView vks with
        | .error e => .error (.fromEnv e)
        | .ok vk =>
          if expected = vk then .ok (some pk, vk) else .error .credentialMismatch
  | some pks, none =>
    match cred.parsePriv pks with
    | .error e => .error (.fromEnv e)
    | .ok pk =>
      match cred.deriveView pk with
      | .error e => .error (.fromEnv e)
      | .ok vk => .ok (some pk, vk)
  | none, some vks =>
    match cred.parseView vks with
    | .error e => .error (.fromEnv e)
    | .ok vk => .ok (none, vk)
  | none, none => .error .missingCredential

/-! ### The page-request schedule -/

/-- `Pages e rs l`: starting the paging loop at `request_start = rs`
with stop bound `e`, the list of `(request_start, request_end)` page
requests issued until the loop condition fails is exactly `l`.  This is
the request schedule of scan.rs:150-178, detached from the endpoint. -/
inductive Pages (e : Nat) : Nat → List (Nat × Nat) → Prop where
  | done (rs : Nat) (h : e < rs) : Pages e rs []
  | step (rs : Nat) (tail : List (Nat × Nat)) (h : rs ≤ e)
      (ht : Pages e (satAdd rs (min MAX_BLOCK_RANGE (satAdd (e - rs) 1))) tail) :
      Pages e rs
        ((rs, satAdd rs (min MAX_BLOCK_RANGE (satAdd (e - rs) 1))) :: tail)

/-- `ChainCovers lo hi l`: the half-open intervals of `l` are nonempty,
consecutive (each starts where the previous one ended), begin at `lo`
and end at `hi`; so together they tile `[lo, hi)` exactly. -/
def ChainCovers : Nat → Nat → List (Nat × Nat) → Prop
  | lo, hi, [] => lo = hi
  | lo, hi, (a, b) :: rest => lo = a ∧ a < b ∧ ChainCovers b hi rest

/-- The blocks an endpoint returns for one page request (empty when the
request fails); used to state what a successful scan accumulated. -/
def pageBlocks (env : ScanEnv) (p : Nat × Nat) : List Blk :=
  match env.getBlocks p.1 p.2 with
  | .ok bs => bs
  | .error _ => []

/-- The contribution of a single `(commitment, ciphertext record)` pair
to the result set: `some r` iff it passes the ownership test and
`decrypt_record` keeps it as `r`. -/
def recordOutcome (env : ScanEnv) (private_key : Option PrivKey) (view_key : ViewKey)
    (x : Nat) (cr : Commitment × CtRec) : Option PtRec :=
  if env.isOwner cr.2 view_key x then
    match decrypt_record env private_key view_key cr.1 cr.2 with
    | .ok (some r) => some r
    | _ => none
  else none

/-- A fixed benign endpoint model: every page request succeeds with no
blocks, every spend lookup reports spent, decryption echoes the record. -/
def env0 : ScanEnv where
  toAddressX := fun vk => vk
  isOwner := fun ct _ x => decide (ct % 2 = x % 2)
  decrypt := fun ct _ => .ok ct
  serialNumber := fun pk c => .ok (pk + c)
  getBlocks := fun _ _ => .ok []
  findTransition := fun _ => .ok ()

/-- Abbreviation for the records one page request contributes on a
successful scan. -/
def pageRecords (env : ScanEnv) (pk : Option PrivKey) (vk : ViewKey) (x : Nat)
    (p : Nat × Nat) : List PtRec :=
  (pageBlocks env p).flatMap (fun b => b.filterMap (recordOutcome env pk vk x))

/-- Like `env0`, but decryption of a record that fails the ownership
test (an odd record, for view key 0) yields a different plaintext; on
owned records it agrees with `env0`. -/
def envB : ScanEnv where
  toAddressX := fun vk => vk
  isOwner := fun ct _ x => decide (ct % 2 = x % 2)
  decrypt := fun ct _ => if ct % 2 = 0 then .ok ct else .ok (ct + 1000)
  serialNumber := fun pk c => .ok (pk + c)
  getBlocks := fun _ _ => .ok []
  findTransition := fun _ => .ok ()

/-- Like `env0`, but every block-page request starting past height 0
fails with transport error 7. -/
def envFail : ScanEnv where
  toAddressX := fun vk => vk
  isOwner := fun ct _ x => decide (ct % 2 = x % 2)
  decrypt := fun ct _ => .ok ct
  serialNumber := fun pk c => .ok (pk + c)
  getBlocks := fun s _ => if s = 0 then .ok [] else .error 7
  findTransition := fun _ => .ok ()

/-- A static dataset: every page request returns two blocks, the first
holding an owned (even) and a non-owned (odd) ciphertext record, the
second another owned one; decryption adds 500. -/
def envData : ScanEnv where
  toAddressX := fun vk => vk
  isOwner := fun ct _ x => decide (ct % 2 = x % 2)
  decrypt := fun ct _ => .ok (ct + 500)
  serialNumber := fun pk c => .ok (pk + c)
  getBlocks := fun s _ => .ok [[(s, 2), (s + 1, 3)], [(s + 2, 4)]]
  findTransition := fun _ => .ok ()

/-- A fixed interpretation of the credential-string capabilities, used
to witness the credential-resolver contract. -/
def cred0 : Cred where
  parsePriv := fun s => .ok (s + 1)
  parseView := fun s => .ok (s * 2)
  deriveView := fun pk => .ok (pk * 3)

/-! ### Arithmetic facts about the saturating operations -/

theorem satAdd_le_max (a b : Nat) : satAdd a b ≤ U32MAX := by
  simp [satAdd]

theorem satAdd_of_le (a b : Nat) (h : a + b ≤ U32MAX) : satAdd a b = a + b := by
  simp [satAdd]
  omega

/-! ### Facts about the page-request schedule -/

theorem pages_nil_of_lt {e rs : Nat} {l : List (Nat × Nat)} (h : Pages e rs l)
    (hlt : e < rs) : l = [] := by
  cases h with
  | done rs h => rfl
  | step rs tail h ht => omega

theorem pages_end_lt_max {e rs : Nat} {l : List (Nat × Nat)} (h : Pages e rs l) :
    e < U32MAX ∨ e < rs := by
  induction h with
  | done rs h => exact Or.inr h
  | step rs tail h ht ih =>
    rcases ih with h1 | h1
    · exact Or.inl h1
    · exact Or.inl (lt_of_lt_of_le h1 (satAdd_le_max _ _))

theorem pages_length {e : Nat} (hmax : e < U32MAX) {rs : Nat} {l : List (Nat × Nat)}
    (h : Pages e rs l) : rs ≤ e → l.length = (e - rs + 1 + 49) / 50 := by
  induction h with
  | done rs h => omega
  | step rs tail h ht ih =>
    intro _
    have hsat1 : satAdd (e - rs) 1 = e - rs + 1 := satAdd_of_le _ _ (by simp [U32MAX] at hmax ⊢; omega)
    have hnum : min MAX_BLOCK_RANGE (satAdd (e - rs) 1) = min 50 (e - rs + 1) := by
      rw [hsat1]; rfl
    have hsat2 : satAdd rs (min 50 (e - rs + 1)) = rs + min 50 (e - rs + 1) :=
      satAdd_of_le _ _ (by simp [U32MAX] at hmax ⊢; omega)
    rw [hnum] at ht ih
    rw [hsat2] at ht ih
    by_cases hspan : e - rs + 1 ≤ 50
    · have hmin : min 50 (e - rs + 1) = e - rs + 1 := by omega
      rw [hmin] at ht
      have : tail = [] := pages_nil_of_lt ht (by omega)
      subst this
      simp
      omega
    · have hmin : min 50 (e - rs + 1) = 50 := by omega
      rw [hmin] at ht ih
      have hlen : tail.length = (e - (rs + 50) + 1 + 49) / 50 := ih (by omega)
      simp [hlen]
      omega

theorem pages_chain {e : Nat} (hmax : e < U32MAX) {rs : Nat} {l : List (Nat × Nat)}
    (h : Pages e rs l) : rs ≤ e → ChainCovers rs (e + 1) l := by
  induction h with
  | done rs h => omega
  | step rs tail h ht ih =>
    intro _
    have hsat1 : satAdd (e - rs) 1 = e - rs + 1 := satAdd_of_le _ _ (by simp [U32MAX] at hmax ⊢; omega)
    have hnum : min MAX_BLOCK_RANGE (satAdd (e - rs) 1) = min 50 (e - rs + 1) := by
      rw [hsat1]; rfl
    have hsat2 : satAdd rs (min 50 (e - rs + 1)) = rs + min 50 (e - rs + 1) :=
      satAdd_of_le _ _ (by simp [U32MAX] at hmax ⊢; omega)
    rw [hnum, hsat2]
    rw [hnum, hsat2] at ht ih
    refine ⟨rfl, by omega, ?_⟩
    by_cases hspan : e - rs + 1 ≤ 50
    · have hmin : min 50 (e - rs + 1) = e - rs + 1 := by omega
      rw [hmin] at ht ⊢
      have : tail = [] := pages_nil_of_lt ht (by omega)
      subst this
      show rs + (e - rs + 1) = e + 1
      omega
    · have hmin : min 50 (e - rs + 1) = 50 := by omega
      rw [hmin] at ht ih ⊢
      exact ih (by omega)

theorem pages_span_le {e : Nat} {rs : Nat} {l : List (Nat × Nat)}
    (h : Pages e rs l) : ∀ p ∈ l, p.2 - p.1 ≤ 50 := by
  induction h with
  | done rs h => intro p hp; cases hp
  | step rs tail h ht ih =>
    intro p hp
    cases hp with
    | head =>
      show satAdd rs (min MAX_BLOCK_RANGE (satAdd (e - rs) 1)) - rs ≤ 50
      have h1 : min MAX_BLOCK_RANGE (satAdd (e - rs) 1) ≤ 50 := by
        simp [MAX_BLOCK_RANGE]
      have h2 : satAdd rs (min MAX_BLOCK_RANGE (satAdd (e - rs) 1)) ≤
          rs + min MAX_BLOCK_RANGE (satAdd (e - rs) 1) := by
        simp [satAdd]
      omega
    | tail _ hmem => exact ih p hmem

/-! ### Facts about `ChainCovers` -/

theorem chainCovers_bounds {l : List (Nat × Nat)} :
    ∀ {lo hi : Nat}, ChainCovers lo hi l → ∀ p ∈ l, lo ≤ p.1 ∧ p.1 < p.2 ∧ p.2 ≤ hi := by
  induction l with
  | nil => intro lo hi _ p hp; cases hp
  | cons a rest ih =>
    intro lo hi hc p hp
    obtain ⟨a1, a2⟩ := a
    obtain ⟨hlo, hab, hrest⟩ := hc
    cases hp with
    | head =>
      have hhi : ∀ q ∈ rest, a2 ≤ q.1 ∧ q.1 < q.2 ∧ q.2 ≤ hi := ih hrest
      have : a2 ≤ hi := by
        cases rest with
        | nil => exact le_of_eq hrest
        | cons b rest2 =>
          obtain ⟨hb1, hb2⟩ := (hhi b (by simp)).2
          obtain ⟨heq, _⟩ := hrest
          omega
      exact ⟨by omega, by omega, this⟩
    | tail _ hmem =>
      obtain ⟨hq1, hq2, hq3⟩ := ih hrest p hmem
      exact ⟨by omega, hq2, hq3⟩

theorem chainCovers_pairwise {l : List (Nat × Nat)} :
    ∀ {lo hi : Nat}, ChainCovers lo hi l → l.Pairwise (fun p q => p.2 ≤ q.1) := by
  induction l with
  | nil => intro lo hi _; exact List.Pairwise.nil
  | cons a rest ih =>
    intro lo hi hc
    obtain ⟨a1, a2⟩ := a
    obtain ⟨hlo, hab, hrest⟩ := hc
    refine List.Pairwise.cons ?_ (ih hrest)
    intro q hq
    exact (chainCovers_bounds hrest q hq).1

theorem chainCovers_mem_of_lt {l : List (Nat × Nat)} :
    ∀ {lo hi : Nat}, ChainCovers lo hi l → ∀ h, lo ≤ h → h < hi →
      ∃ p ∈ l, p.1 ≤ h ∧ h < p.2 := by
  induction l with
  | nil =>
    intro lo hi hc h h1 h2
    have : lo = hi := hc
    omega
  | cons a rest ih =>
    intro lo hi hc h h1 h2
    obtain ⟨a1, a2⟩ := a
    obtain ⟨hlo, hab, hrest⟩ := hc
    by_cases hcase : h < a2
    · exact ⟨(a1, a2), by simp, by omega, hcase⟩
    · obtain ⟨p, hp, hp1, hp2⟩ := ih hrest h (by omega) h2
      exact ⟨p, by simp [hp], hp1, hp2⟩

/-! ### Shape of successful scans -/

theorem scanBlock_ok {env : ScanEnv} {pk : Option PrivKey} {vk : ViewKey} {x : Nat} :
    ∀ {l : List (Commitment × CtRec)} {rs : List PtRec},
      scanBlock env pk vk x l = .ok rs →
      rs = l.filterMap (recordOutcome env pk vk x) := by
  intro l
  induction l with
  | nil =>
    intro rs h
    simp [scanBlock] at h
    simp [h.symm]
  | cons a rest ih =>
    intro rs h
    obtain ⟨c, ct⟩ := a
    simp only [scanBlock] at h
    by_cases how : env.isOwner ct vk x
    · rw [if_pos how] at h
      cases hd : decrypt_record env pk vk c ct with
      | error e => rw [hd] at h; cases h
      | ok o =>
        rw [hd] at h
        cases o with
        | none =>
          have hrec := ih h
          simp [List.filterMap_cons, recordOutcome, how, hd]
          exact hrec
        | some r =>
          cases hrest : scanBlock env pk vk x rest with
          | error e => rw [hrest] at h; cases h
          | ok rs2 =>
            rw [hrest] at h
            have hrec := ih hrest
            simp at h
            simp [List.filterMap_cons, recordOutcome, how, hd, h.symm]
            exact hrec
    · rw [if_neg how] at h
      have hrec := ih h
      simp [List.filterMap_cons, recordOutcome, how]
      exact hrec

theorem scanBlocks_ok {env : ScanEnv} {pk : Option PrivKey} {vk : ViewKey} {x : Nat} :
    ∀ {bs : List Blk} {rs : List PtRec},
      scanBlocks env pk vk x bs = .ok rs →
      rs = bs.flatMap (fun b => b.filterMap (recordOutcome env pk vk x)) := by
  intro bs
  induction bs with
  | nil =>
    intro rs h
    simp [scanBlocks] at h
    simp [h.symm]
  | cons b bs2 ih =>
    intro rs h
    simp only [scanBlocks] at h
    cases hb : scanBlock env pk vk x b with
    | error e => rw [hb] at h; cases h
    | ok rs1 =>
      rw [hb] at h
      cases hbs : scanBlocks env pk vk x bs2 with
      | error e => rw [hbs] at h; cases h
      | ok rs2 =>
        rw [hbs] at h
        simp at h
        simp [List.flatMap_cons, h.symm, scanBlock_ok hb, ih hbs]


theorem fetchLoop_ok_spec {env : ScanEnv} {pk : Option PrivKey} {vk : ViewKey}
    {x e : Nat} :
    ∀ {fuel rs : Nat} {reqs r2 : List (Nat × Nat)} {acc recs : List PtRec},
      fetchLoop env pk vk x e fuel rs reqs acc = some (r2, .ok recs) →
      ∃ tail, r2 = reqs ++ tail ∧ Pages e rs tail ∧
        recs = acc ++ tail.flatMap (pageRecords env pk vk x) := by
  intro fuel
  induction fuel with
  | zero =>
    intro rs reqs r2 acc recs h
    simp [fetchLoop] at h
  | succ fuel ih =>
    intro rs reqs r2 acc recs h
    simp only [fetchLoop] at h
    by_cases hle : rs ≤ e
    · rw [if_pos hle] at h
      split at h
      next er hgb => simp at h
      next blocks hgb =>
        split at h
        next er hsb => simp at h
        next newRecs hsb =>
          obtain ⟨tail, h1, h2, h3⟩ := ih h
          refine ⟨(rs, satAdd rs (min MAX_BLOCK_RANGE (satAdd (e - rs) 1))) :: tail, ?_, ?_, ?_⟩
          · simp [h1]
          · exact Pages.step rs tail hle h2
          · have hpr : pageRecords env pk vk x
                (rs, satAdd rs (min MAX_BLOCK_RANGE (satAdd (e - rs) 1))) = newRecs := by
              simp [pageRecords, pageBlocks, hgb, (scanBlocks_ok hsb).symm]
            simp [h3, List.flatMap_cons, hpr]
    · rw [if_neg hle] at h
      simp at h
      obtain ⟨h1, h2⟩ := h
      exact ⟨[], by simp [h1.symm], Pages.done rs (by omega), by simp [h2.symm]⟩

/-! ### Shape of failing scans -/

theorem decrypt_record_err_env {env : ScanEnv} {pk : Option PrivKey} {vk : ViewKey}
    {c : Commitment} {ct : CtRec} {err : Err}
    (h : decrypt_record env pk vk c ct = .error err) : ∃ ee, err = .fromEnv ee := by
  unfold decrypt_record at h
  cases pk with
  | none =>
    cases hd : env.decrypt ct vk with
    | error e => rw [hd] at h; simp at h; exact ⟨e, h.symm⟩
    | ok r => rw [hd] at h; simp at h
  | some pk =>
    simp only at h
    cases hs : env.serialNumber pk c with
    | error e => rw [hs] at h; simp at h; exact ⟨e, h.symm⟩
    | ok sn =>
      rw [hs] at h
      simp only at h
      cases hf : env.findTransition sn with
      | ok u => rw [hf] at h; simp at h
      | error e2 =>
        rw [hf] at h
        simp only at h
        cases hd : env.decrypt ct vk with
        | error e => rw [hd] at h; simp at h; exact ⟨e, h.symm⟩
        | ok r => rw [hd] at h; simp at h

theorem scanBlock_err_env {env : ScanEnv} {pk : Option PrivKey} {vk : ViewKey} {x : Nat} :
    ∀ {l : List (Commitment × CtRec)} {err : Err},
      scanBlock env pk vk x l = .error err → ∃ ee, err = .fromEnv ee := by
  intro l
  induction l with
  | nil => intro err h; simp [scanBlock] at h
  | cons a rest ih =>
    intro err h
    obtain ⟨c, ct⟩ := a
    simp only [scanBlock] at h
    by_cases how : env.isOwner ct vk x
    · rw [if_pos how] at h
      split at h
      next e hd =>
        simp at h
        exact h ▸ decrypt_record_err_env hd
      next hd => exact ih h
      next r hd =>
        split at h
        next e hrest => simp at h; exact h ▸ ih hrest
        next hrest => simp at h
    · rw [if_neg how] at h
      exact ih h

theorem scanBlocks_err_env {env : ScanEnv} {pk : Option PrivKey} {vk : ViewKey} {x : Nat} :
    ∀ {bs : List Blk} {err : Err},
      scanBlocks env pk vk x bs = .error err → ∃ ee, err = .fromEnv ee := by
  intro bs
  induction bs with
  | nil => intro err h; simp [scanBlocks] at h
  | cons b bs2 ih =>
    intro err h
    simp only [scanBlocks] at h
    split at h
    next e hb => simp at h; exact h ▸ scanBlock_err_env hb
    next rs1 hb =>
      split at h
      next e hbs => simp at h; exact h ▸ ih hbs
      next rs2 hbs => simp at h

theorem fetchLoop_err_env {env : ScanEnv} {pk : Option PrivKey} {vk : ViewKey}
    {x e : Nat} :
    ∀ {fuel rs : Nat} {reqs r2 : List (Nat × Nat)} {acc : List PtRec} {err : Err},
      fetchLoop env pk vk x e fuel rs reqs acc = some (r2, .error err) →
      ∃ ee, err = .fromEnv ee := by
  intro fuel
  induction fuel with
  | zero => intro rs reqs r2 acc err h; simp [fetchLoop] at h
  | succ fuel ih =>
    intro rs reqs r2 acc err h
    simp only [fetchLoop] at h
    by_cases hle : rs ≤ e
    · rw [if_pos hle] at h
      split at h
      next e2 hgb => simp at h; exact ⟨e2, h.2.symm⟩
      next blocks hgb =>
        split at h
        next e2 hsb => simp at h; exact h.2 ▸ scanBlocks_err_env hsb
        next newRecs hsb => exact ih h
    · rw [if_neg hle] at h
      simp at h

/-- Invariant form of the abort-on-page-failure property: if every
already-logged request succeeded and the loop completes, then any
logged request whose fetch fails forces the final outcome to be exactly
that error. -/
theorem fetchLoop_page_error {env : ScanEnv} {pk : Option PrivKey} {vk : ViewKey}
    {x e : Nat} :
    ∀ {fuel rs : Nat} {reqs r2 : List (Nat × Nat)} {acc : List PtRec}
      {res : Except Err (List PtRec)},
      (∀ p ∈ reqs, ∃ bs, env.getBlocks p.1 p.2 = .ok bs) →
      fetchLoop env pk vk x e fuel rs reqs acc = some (r2, res) →
      ∀ p ∈ r2, ∀ er, env.getBlocks p.1 p.2 = .error er →
        res = .error (.fromEnv er) := by
  intro fuel
  induction fuel with
  | zero => intro rs reqs r2 acc res hinv h; simp [fetchLoop] at h
  | succ fuel ih =>
    intro rs reqs r2 acc res hinv h
    simp only [fetchLoop] at h
    by_cases hle : rs ≤ e
    · rw [if_pos hle] at h
      split at h
      next e2 hgb =>
        simp at h
        obtain ⟨h1, h2⟩ := h
        intro p hp er her
        rw [← h1] at hp
        simp at hp
        rcases hp with hp | hp
        · obtain ⟨bs, hbs⟩ := hinv p hp
          rw [hbs] at her
          cases her
        · rw [hp] at her
          simp at her
          rw [hgb] at her
          simp at her
          rw [← h2, her]
      next blocks hgb =>
        split at h
        next e2 hsb =>
          simp at h
          obtain ⟨h1, h2⟩ := h
          intro p hp er her
          rw [← h1] at hp
          simp at hp
          rcases hp with hp | hp
          · obtain ⟨bs, hbs⟩ := hinv p hp
            rw [hbs] at her
            cases her
          · rw [hp] at her
            simp at her
            rw [hgb] at her
            cases her
        next newRecs hsb =>
          refine ih ?_ h
          intro p hp
          simp at hp
          rcases hp with hp | hp
          · exact hinv p hp
          · exact ⟨blocks, by rw [hp]; simpa using hgb⟩
    · rw [if_neg hle] at h
      simp at h
      obtain ⟨h1, h2⟩ := h
      intro p hp er her
      rw [← h1] at hp
      obtain ⟨bs, hbs⟩ := hinv p hp
      rw [hbs] at her
      cases her

/-! ### Termination of the paging loop -/

theorem fetchLoop_fuel_enough {env : ScanEnv} {pk : Option PrivKey} {vk : ViewKey}
    {x e : Nat} (hmax : e < U32MAX) :
    ∀ fuel : Nat, ∀ {rs : Nat}, rs ≤ e + 1 → e + 2 - rs ≤ fuel →
      ∀ (reqs : List (Nat × Nat)) (acc : List PtRec),
        fetchLoop env pk vk x e fuel rs reqs acc ≠ none := by
  intro fuel
  induction fuel with
  | zero => intro rs h1 h2 reqs acc; omega
  | succ fuel ih =>
    intro rs h1 h2 reqs acc
    simp only [fetchLoop]
    by_cases hle : rs ≤ e
    · rw [if_pos hle]
      have hsat1 : satAdd (e - rs) 1 = e - rs + 1 :=
        satAdd_of_le _ _ (by simp [U32MAX] at hmax ⊢; omega)
      have hnum1 : (1 : Nat) ≤ min MAX_BLOCK_RANGE (satAdd (e - rs) 1) := by
        rw [hsat1]; simp [MAX_BLOCK_RANGE]
      have hnum2 : min MAX_BLOCK_RANGE (satAdd (e - rs) 1) ≤ e - rs + 1 := by
        rw [hsat1]; omega
      have hsat2 : satAdd rs (min MAX_BLOCK_RANGE (satAdd (e - rs) 1)) =
          rs + min MAX_BLOCK_RANGE (satAdd (e - rs) 1) :=
        satAdd_of_le _ _ (by simp [U32MAX] at hmax ⊢; omega)
      split
      next e2 hgb => simp
      next blocks hgb =>
        split
        next e2 hsb => simp
        next newRecs hsb =>
          apply ih
          · omega
          · omega
    · rw [if_neg hle]
      simp

/-- At `end_height = u32::MAX` the advance saturates: from
`request_start = u32::MAX` the loop re-enters forever (with the benign
endpoint `env0` that never errors), so no amount of fuel completes it. -/
theorem fetchLoop_stuck_at_max :
    ∀ (fuel : Nat) (reqs : List (Nat × Nat)) (acc : List PtRec),
      fetchLoop env0 none 0 0 U32MAX fuel U32MAX reqs acc = none := by
  intro fuel
  induction fuel with
  | zero => intro reqs acc; rfl
  | succ fuel ih =>
    intro reqs acc
    have h1 : min MAX_BLOCK_RANGE (satAdd (U32MAX - U32MAX) 1) = 1 := by
      simp [satAdd, MAX_BLOCK_RANGE, U32MAX]
    have h2 : satAdd U32MAX 1 = U32MAX := by
      simp [satAdd]
    simp only [fetchLoop, if_pos (le_refl U32MAX), h1, h2]
    simp only [env0, scanBlocks]
    exact ih _ _

/-! ### Congruence: the scan only consults `decrypt` on owned records -/

theorem decrypt_record_congr {env1 env2 : ScanEnv} {pk : Option PrivKey} {vk : ViewKey}
    {c : Commitment} {ct : CtRec}
    (hs : env1.serialNumber = env2.serialNumber)
    (hf : env1.findTransition = env2.findTransition)
    (hd : env1.decrypt ct vk = env2.decrypt ct vk) :
    decrypt_record env1 pk vk c ct = decrypt_record env2 pk vk c ct := by
  cases pk with
  | none => simp only [decrypt_record, hd]
  | some pk => simp only [decrypt_record, hs, hf, hd]

theorem scanBlock_congr {env1 env2 : ScanEnv} {pk : Option PrivKey} {vk : ViewKey} {x : Nat}
    (ho : env1.isOwner = env2.isOwner)
    (hs : env1.serialNumber = env2.serialNumber)
    (hf : env1.findTransition = env2.findTransition)
    (hd : ∀ ct, env1.isOwner ct vk x = true → env1.decrypt ct vk = env2.decrypt ct vk) :
    ∀ l : List (Commitment × CtRec), scanBlock env1 pk vk x l = scanBlock env2 pk vk x l := by
  intro l
  induction l with
  | nil => rfl
  | cons a rest ih =>
    obtain ⟨c, ct⟩ := a
    simp only [scanBlock, ← ho]
    cases how : env1.isOwner ct vk x with
    | false => simp only [Bool.false_eq_true, if_neg]; exact ih
    | true =>
      simp only [if_pos]
      rw [decrypt_record_congr hs hf (hd ct how), ih]
  

theorem scanBlocks_congr {env1 env2 : ScanEnv} {pk : Option PrivKey} {vk : ViewKey} {x : Nat}
    (ho : env1.isOwner = env2.isOwner)
    (hs : env1.serialNumber = env2.serialNumber)
    (hf : env1.findTransition = env2.findTransition)
    (hd : ∀ ct, env1.isOwner ct vk x = true → env1.decrypt ct vk = env2.decrypt ct vk) :
    ∀ bs : List Blk, scanBlocks env1 pk vk x bs = scanBlocks env2 pk vk x bs := by
  intro bs
  induction bs with
  | nil => rfl
  | cons b bs2 ih =>
    simp only [scanBlocks, scanBlock_congr ho hs hf hd, ih]

theorem fetchLoop_congr {env1 env2 : ScanEnv} {pk : Option PrivKey} {vk : ViewKey} {x e : Nat}
    (hg : env1.getBlocks = env2.getBlocks)
    (ho : env1.isOwner = env2.isOwner)
    (hs : env1.serialNumber = env2.serialNumber)
    (hf : env1.findTransition = env2.findTransition)
    (hd : ∀ ct, env1.isOwner ct vk x = true → env1.decrypt ct vk = env2.decrypt ct vk) :
    ∀ (fuel rs : Nat) (reqs : List (Nat × Nat)) (acc : List PtRec),
      fetchLoop env1 pk vk x e fuel rs reqs acc = fetchLoop env2 pk vk x e fuel rs reqs acc := by
  intro fuel
  induction fuel with
  | zero => intro rs reqs acc; rfl
  | succ fuel ih =>
    intro rs reqs acc
    simp only [fetchLoop, hg, scanBlocks_congr ho hs hf hd, ih]

/-! ### The claims -/

/-- Claim C1: for every scan range `[start_height, end_height]` with
`start_height ≤ end_height`, whenever `fetch_records` completes its scan
successfully it has issued exactly `ceil(span / 50)` block-page requests
(`span = end_height - start_height + 1`), each request covers at most 50
blocks, and the requested half-open sub-ranges `[request_start,
request_end)` are contiguous, cover the whole range (they tile
`[start_height, end_height + 1)` exactly), and do not overlap. -/
theorem C1_paging (env : ScanEnv) (pk : Option PrivKey) (vk : ViewKey)
    (fuel s e : Nat) (reqs : List (Nat × Nat)) (recs : List PtRec)
    (hse : s ≤ e)
    (hrun : fetch_records fuel env pk vk s e = some (reqs, .ok recs)) :
    reqs.length = (e - s + 1 + 49) / 50 ∧
    (∀ p ∈ reqs, p.2 - p.1 ≤ 50) ∧
    ChainCovers s (e + 1) reqs ∧
    reqs.Pairwise (fun p q => p.2 ≤ q.1) ∧
    (∀ h : Nat, s ≤ h → h ≤ e → ∃ p ∈ reqs, p.1 ≤ h ∧ h < p.2) := by
  unfold fetch_records at hrun
  rw [if_neg (by omega)] at hrun
  obtain ⟨tail, h1, h2, h3⟩ := fetchLoop_ok_spec hrun
  simp at h1
  subst h1
  have hmax : e < U32MAX := by
    rcases pages_end_lt_max h2 with hm | hm
    · exact hm
    · omega
  have hchain := pages_chain hmax h2 hse
  refine ⟨pages_length hmax h2 hse, pages_span_le h2, hchain,
    chainCovers_pairwise hchain, ?_⟩
  intro h hh1 hh2
  exact chainCovers_mem_of_lt hchain h hh1 (by omega)

/-- Witness for C1: a successful scan of `[0, 119]` (span 120) against
the benign endpoint issues the three requests `(0,50), (50,100),
(100,120)`, which satisfy every conjunct. -/
theorem C1_paging_witness :
    [(0, 50), (50, 100), (100, 120)].length = (119 - 0 + 1 + 49) / 50 ∧
    (∀ p ∈ [((0 : Nat), (50 : Nat)), (50, 100), (100, 120)], p.2 - p.1 ≤ 50) ∧
    ChainCovers 0 (119 + 1) [(0, 50), (50, 100), (100, 120)] ∧
    [((0 : Nat), (50 : Nat)), (50, 100), (100, 120)].Pairwise (fun p q => p.2 ≤ q.1) ∧
    (∀ h : Nat, 0 ≤ h → h ≤ 119 →
      ∃ p ∈ [((0 : Nat), (50 : Nat)), (50, 100), (100, 120)], p.1 ≤ h ∧ h < p.2) :=
  C1_paging env0 none 0 10 0 119 [(0, 50), (50, 100), (100, 120)] []
    (by omega) (by rfl)

/-- Claim C2: for an owned `(commitment, ciphertext record)` pair whose
serial number derives successfully and which decrypts successfully:
with a private key present, `decrypt_record` returns the exclusion
`Except.ok none` exactly when the find-transition lookup succeeds, and
returns the decrypted record on any lookup error (not-found and
transport failures alike); with no private key it decrypts
unconditionally, and its outcome depends only on the `decrypt`
capability (no spend lookup is consulted). -/
theorem C2_decrypt_record_contract (env : ScanEnv) (pk : PrivKey) (vk : ViewKey)
    (c : Commitment) (ct : CtRec) (sn : SN) (r : PtRec)
    (hsn : env.serialNumber pk c = .ok sn)
    (hdec : env.decrypt ct vk = .ok r) :
    (decrypt_record env (some pk) vk c ct = .ok none ↔
      env.findTransition sn = .ok ()) ∧
    (∀ er, env.findTransition sn = .error er →
      decrypt_record env (some pk) vk c ct = .ok (some r)) ∧
    decrypt_record env none vk c ct = .ok (some r) ∧
    (∀ env2 : ScanEnv, env2.decrypt = env.decrypt →
      decrypt_record env2 none vk c ct = decrypt_record env none vk c ct) := by
  refine ⟨?_, ?_, ?_, ?_⟩
  · cases hf : env.findTransition sn with
    | ok u =>
      simp only [decrypt_record, hsn, hf]
    | error er =>
      simp only [decrypt_record, hsn, hf, hdec]
      simp
  · intro er hf
    simp only [decrypt_record, hsn, hf, hdec]
  · simp only [decrypt_record, hdec]
  · intro env2 h2
    simp only [decrypt_record, h2]

/-- Witness for C2: with the benign endpoint (`findTransition` always
succeeds) the record with commitment 2 and ciphertext 6 is excluded;
the view-only path decrypts it. -/
theorem C2_decrypt_record_witness :
    ((decrypt_record env0 (some 1) 0 2 6 = .ok none ↔
      env0.findTransition 3 = .ok ()) ∧
    (∀ er, env0.findTransition 3 = .error er →
      decrypt_record env0 (some 1) 0 2 6 = .ok (some 6)) ∧
    decrypt_record env0 none 0 2 6 = .ok (some 6) ∧
    (∀ env2 : ScanEnv, env2.decrypt = env0.decrypt →
      decrypt_record env2 none 0 2 6 = decrypt_record env0 none 0 2 6)) :=
  C2_decrypt_record_contract env0 1 0 2 6 3 6 rfl rfl

/-- Claim C3: the scan never invokes decryption on a record that fails
the ownership test against the viewing address x-coordinate.  Stated as
non-interference: if two capability environments agree everywhere except
possibly on the decryption of records whose ownership test is false,
the whole scan produces identical output — so the outcome of the scan
never depends on decrypting a non-matching record, which is dropped. -/
theorem C3_no_decrypt_unless_owned (env1 env2 : ScanEnv) (pk : Option PrivKey)
    (vk : ViewKey) (fuel s e : Nat)
    (ht : env1.toAddressX = env2.toAddressX)
    (hg : env1.getBlocks = env2.getBlocks)
    (ho : env1.isOwner = env2.isOwner)
    (hs : env1.serialNumber = env2.serialNumber)
    (hf : env1.findTransition = env2.findTransition)
    (hd : ∀ ct, env1.isOwner ct vk (env1.toAddressX vk) = true →
      env1.decrypt ct vk = env2.decrypt ct vk) :
    fetch_records fuel env1 pk vk s e = fetch_records fuel env2 pk vk s e := by
  unfold fetch_records
  rw [← ht]
  by_cases hse : s > e
  · rw [if_pos hse, if_pos hse]
  · rw [if_neg hse, if_neg hse]
    exact fetchLoop_congr hg ho hs hf hd fuel s [] []

/-- Witness for C3: `env0` and `envB` differ in how they decrypt
non-owned (odd) records but agree on owned ones; the scans coincide. -/
theorem C3_no_decrypt_unless_owned_witness :
    fetch_records 10 env0 none 0 0 119 = fetch_records 10 envB none 0 0 119 :=
  C3_no_decrypt_unless_owned env0 envB none 0 10 0 119 rfl rfl rfl rfl rfl
    (fun ct hct => by
      have hev : ct % 2 = 0 := by
        have := of_decide_eq_true hct
        simpa using this
      simp [env0, envB, hev])

/-- Claim C4: the range planner returns an explicit end as-is without
consulting the endpoint, and — for an explicit end, or for an end
derived from a reported chain height — succeeds with that end exactly
when `end > start` and otherwise fails with the invalid-range error. -/
theorem C4_parse_end_height (s e h : Nat) (lh lh2 : Except EnvErr Nat) :
    parse_end_height s (some e) lh =
      (if s < e then .ok e else .error (.invalidScanRange s e)) ∧
    (parse_end_height s (some e) lh = .ok e ↔ s < e) ∧
    parse_end_height s none (.ok h) =
      (if s < h then .ok h else .error (.invalidScanRange s h)) ∧
    (parse_end_height s none (.ok h) = .ok h ↔ s < h) ∧
    parse_end_height s (some e) lh = parse_end_height s (some e) lh2 := by
  refine ⟨rfl, ?_, rfl, ?_, rfl⟩
  · by_cases hlt : s < e <;> simp [parse_end_height, hlt]
  · by_cases hlt : s < h <;> simp [parse_end_height, hlt]

/-- Claim C5: the credential resolver's four-case contract, assuming
each supplied credential string parses and the view key derives. -/
theorem C5_parse_account (cred : Cred) (pks vks : Nat) (pk : PrivKey)
    (evk vk : ViewKey)
    (hp : cred.parsePriv pks = .ok pk)
    (hdv : cred.deriveView pk = .ok evk)
    (hv : cred.parseView vks = .ok vk) :
    parse_account cred (some pks) (some vks) =
      (if evk = vk then .ok (some pk, vk) else .error .credentialMismatch) ∧
    parse_account cred (some pks) none = .ok (some pk, evk) ∧
    parse_account cred none (some vks) = .ok (none, vk) ∧
    parse_account cred none none = .error .missingCredential := by
  refine ⟨?_, ?_, ?_, rfl⟩
  · simp only [parse_account, hp, hdv, hv]
  · simp only [parse_account, hp, hdv]
  · simp only [parse_account, hv]

/-- Witness for C5: under `cred0`, private-key string 1 parses to key 2,
which derives view key 6; view-key string 3 parses to view key 6, so
the pair is accepted, and each single-credential case behaves as
stated. -/
theorem C5_parse_account_witness :
    parse_account cred0 (some 1) (some 3) =
      (if (6 : Nat) = 6 then .ok (some 2, 6) else .error .credentialMismatch) ∧
    parse_account cred0 (some 1) none = .ok (some 2, 6) ∧
    parse_account cred0 none (some 3) = .ok (none, 6) ∧
    parse_account cred0 none none = .error .missingCredential :=
  C5_parse_account cred0 1 3 2 6 6 rfl rfl rfl

/-- Claim C6: if any issued block-page request fails, the whole scan
returns exactly that error — an `Except.error` outcome carrying no
record list — so records decrypted from earlier successful pages are
never returned in any partial form. -/
theorem C6_abort_on_page_failure (env : ScanEnv) (pk : Option PrivKey)
    (vk : ViewKey) (fuel s e : Nat) (reqs : List (Nat × Nat))
    (res : Except Err (List PtRec))
    (hse : s ≤ e)
    (hrun : fetch_records fuel env pk vk s e = some (reqs, res)) :
    ∀ p ∈ reqs, ∀ er, env.getBlocks p.1 p.2 = .error er →
      res = .error (.fromEnv er) := by
  unfold fetch_records at hrun
  rw [if_neg (by omega)] at hrun
  exact fetchLoop_page_error (by intro p hp; simp at hp) hrun

/-- Witness for C6: against `envFail` the scan of `[0, 119]` issues
`(0,50)` successfully, then `(50,100)` fails with transport error 7,
and the overall outcome is exactly that error with no records. -/
theorem C6_abort_on_page_failure_witness :
    fetch_records 10 envFail none 0 0 119 =
      some ([(0, 50), (50, 100)], .error (.fromEnv 7)) ∧
    (Except.error (Err.fromEnv 7) : Except Err (List PtRec)) =
      .error (.fromEnv 7) :=
  ⟨rfl, C6_abort_on_page_failure envFail none 0 10 0 119 [(0, 50), (50, 100)]
    (.error (.fromEnv 7)) (by omega) rfl (50, 100) (by decide) 7 rfl⟩

/-- Claim C7: a successful scan's result set is the in-order
concatenation — over page requests in ascending request order, blocks in
the order received per page, and records in per-block order — of the
decrypted owned (and kept-by-the-spend-filter) records. -/
theorem C7_result_order (env : ScanEnv) (pk : Option PrivKey) (vk : ViewKey)
    (fuel s e : Nat) (reqs : List (Nat × Nat)) (recs : List PtRec)
    (hse : s ≤ e)
    (hrun : fetch_records fuel env pk vk s e = some (reqs, .ok recs)) :
    recs = reqs.flatMap (pageRecords env pk vk (env.toAddressX vk)) := by
  unfold fetch_records at hrun
  rw [if_neg (by omega)] at hrun
  obtain ⟨tail, h1, h2, h3⟩ := fetchLoop_ok_spec hrun
  simp at h1 h3
  rw [h1]
  exact h3

/-- Witness for C7: one page of `envData` over `[5, 5]` yields blocks
`[(5,2),(6,3)]` and `[(7,4)]`; the owned (even) ciphertexts 2 and 4
decrypt to 502 and 504, in block order. -/
theorem C7_result_order_witness :
    [502, 504] = [((5 : Nat), (6 : Nat))].flatMap
      (pageRecords envData none 0 (envData.toAddressX 0)) :=
  C7_result_order envData none 0 3 5 5 [(5, 6)] [502, 504] (by omega) (by rfl)

/-- Claim C8: the scan is a deterministic function of its credentials,
range and the endpoint's (fixed) responses: two environments with
pointwise-equal capabilities produce identical outcomes, in particular
identical result sets. -/
theorem C8_deterministic (env1 env2 : ScanEnv) (fuel : Nat) (pk : Option PrivKey)
    (vk : ViewKey) (s e : Nat)
    (ht : env1.toAddressX = env2.toAddressX)
    (ho : env1.isOwner = env2.isOwner)
    (hd : env1.decrypt = env2.decrypt)
    (hs : env1.serialNumber = env2.serialNumber)
    (hg : env1.getBlocks = env2.getBlocks)
    (hf : env1.findTransition = env2.findTransition) :
    fetch_records fuel env1 pk vk s e = fetch_records fuel env2 pk vk s e := by
  have henv : env1 = env2 := by
    cases env1
    cases env2
    simp_all
  rw [henv]

/-- Witness for C8: two runs over the static dataset coincide. -/
theorem C8_deterministic_witness :
    fetch_records 3 envData none 0 5 5 = fetch_records 3 envData none 0 5 5 :=
  C8_deterministic envData envData 3 none 0 5 5 rfl rfl rfl rfl rfl rfl

/-- Claim C9 is false as stated: at `end_height = u32::MAX` (with
`start_height = u32::MAX ≤ end_height`) the loop never terminates,
because `request_start` advances by `saturating_add` and so never
exceeds `u32::MAX`.  Against the benign endpoint `env0` (every request
succeeds), no fuel makes `fetch_records` return. -/
theorem C9_counterexample :
    ¬ ∃ (fuel : Nat) (r : List (Nat × Nat) × Except Err (List PtRec)),
      fetch_records fuel env0 none 0 U32MAX U32MAX = some r := by
  rintro ⟨fuel, r, h⟩
  unfold fetch_records at h
  rw [if_neg (by omega)] at h
  have hx : env0.toAddressX 0 = 0 := rfl
  rw [hx, fetchLoop_stuck_at_max fuel [] []] at h
  cases h

/-- Claim C9, amended: for every `start_height ≤ end_height` with
`end_height < u32::MAX`, the paging loop terminates — `span + 1`
iterations of fuel suffice for `fetch_records` to return (the saturating
advance gains at least 1 per iteration until it exceeds `end_height`). -/
theorem C9_termination (env : ScanEnv) (pk : Option PrivKey) (vk : ViewKey)
    (s e fuel : Nat) (hse : s ≤ e) (hmax : e < U32MAX)
    (hfuel : e + 2 - s ≤ fuel) :
    fetch_records fuel env pk vk s e ≠ none := by
  unfold fetch_records
  rw [if_neg (by omega)]
  exact fetchLoop_fuel_enough hmax fuel (by omega) hfuel [] []

/-- Witness for the amended C9: a scan of `[0, 119]` returns within 121
units of fuel. -/
theorem C9_termination_witness :
    fetch_records 121 env0 none 0 0 119 ≠ none :=
  C9_termination env0 none 0 0 119 121 (by omega) (by decide) (by omega)

/-- Claim C10: `fetch_records` rejects its range with the
`Invalid block range` error exactly when `start_height > end_height`:
it equals that immediate rejection for `start_height > end_height` and
the paging loop otherwise, and the loop never produces the
invalid-range error (its failures all come from the endpoint); moreover
`parse_end_height` rejects `end = start`, while `fetch_records` accepts
and scans the single-block range `start_height = end_height`. -/
theorem C10_range_check (fuel : Nat) (env : ScanEnv) (pk : Option PrivKey)
    (vk : ViewKey) (s e : Nat) (r2 : List (Nat × Nat))
    (res : Except Err (List PtRec)) (lh : Except EnvErr Nat)
    (hrun : fetchLoop env pk vk (env.toAddressX vk) e fuel s [] [] = some (r2, res)) :
    fetch_records fuel env pk vk s e =
      (if s > e then some ([], .error .invalidRange)
       else fetchLoop env pk vk (env.toAddressX vk) e fuel s [] []) ∧
    res ≠ .error .invalidRange ∧
    parse_end_height s (some s) lh = .error (.invalidScanRange s s) := by
  refine ⟨rfl, ?_, ?_⟩
  · intro hcon
    rw [hcon] at hrun
    obtain ⟨ee, hee⟩ := fetchLoop_err_env hrun
    cases hee
  · simp [parse_end_height]

/-- Witness for C10: the single-block range `[5, 5]` is accepted by
`fetch_records` and scanned with the one request `(5, 6)`, returning
`ok` — while `parse_end_height` rejects `end = start = 5`. -/
theorem C10_range_check_witness :
    (fetch_records 3 env0 none 0 5 5 =
      (if 5 > 5 then some ([], Except.error Err.invalidRange)
       else fetchLoop env0 none 0 (env0.toAddressX 0) 5 3 5 [] [])) ∧
    ((Except.ok [] : Except Err (List PtRec)) ≠ Except.error Err.invalidRange) ∧
    parse_end_height 5 (some 5) (.ok 0) = .error (.invalidScanRange 5 5) :=
  C10_range_check 3 env0 none 0 5 5 [(5, 6)] (.ok []) (.ok 0) (by rfl)
